import Mathlib

/-!
Verification of the ProjectPrompt pipeline against its specification.

The Lean definitions below are a shallow embedding of the Python sources:

* `token_utils.py`     — `MAX_TOKENS`
* `project_generator.py` — `add_gitignore_patterns` (pattern compiler),
  `analyze_project_structure` (directory scanner),
  `ask_ai_for_important_files` / `identify_important_files_fallback`
  (relevance selector), `load_files_under_token_limit` (token-budget loader)
* `gemini_api.py`      — `call_gemini_api` (request client retry loop)
* `vector_db.py`       — `_get_fallback_embeddings` (keyword-frequency embedding)

Machine strings are modelled as `String` / `List Char`; Python string
primitives (`strip`, `count`, `replace`, `in`, `endswith`, `lower`) are
re-implemented below on `List Char` with Python's semantics.  Token counts
are naturals; the fractional budget bound `MAX_TOKENS * 0.95` is modelled
over `ℚ`.  The small regular-expression dialect that the program itself
constructs (anchors, alternation, groups, `.`/`*` wildcards and escaped
literals) is given an executable parser and a fuel-bounded backtracking
matcher; the fuel is a recursion-depth bound that is proved or checked
sufficient at every use in this development.
-/

set_option maxRecDepth 4000

/-! ### Generic list and Python-string utilities -/

/-- Concatenation of the images of a list's elements, in order. -/
def concatMap (f : α → List β) : List α → List β
  | [] => []
  | a :: l => f a ++ concatMap f l

/-- Boolean test that the first list is an initial segment of the second. -/
def listStartsWith [BEq α] : List α → List α → Bool
  | [], _ => true
  | _ :: _, [] => false
  | a :: as, b :: bs => a == b && listStartsWith as bs

/-- Boolean test that the first list is a final segment of the second
(Python `str.endswith`). -/
def listEndsWith [BEq α] (needle hay : List α) : Bool :=
  listStartsWith needle.reverse hay.reverse

/-- Boolean test that the first list occurs contiguously inside the second
(Python `in` on strings). -/
def listContainsSub [BEq α] (needle : List α) : List α → Bool
  | [] => listStartsWith needle []
  | a :: rest => listStartsWith needle (a :: rest) || listContainsSub needle rest

/-- Python `str.count` scan: non-overlapping occurrences of a non-empty
needle, left to right.  The fuel argument starts at the haystack's length,
which suffices because every step consumes at least one haystack element. -/
def pyCountAux [BEq α] (needle : List α) : ℕ → List α → ℕ
  | 0, _ => 0
  | _ + 1, [] => 0
  | fuel + 1, a :: rest =>
    if listStartsWith needle (a :: rest) then
      1 + pyCountAux needle fuel ((a :: rest).drop needle.length)
    else
      pyCountAux needle fuel rest

/-- Python `str.count`: for an empty needle Python returns `len + 1`. -/
def pyCount [BEq α] (needle hay : List α) : ℕ :=
  if needle.isEmpty then hay.length + 1 else pyCountAux needle hay.length hay

/-- Python `str.replace` specialised to a two-character needle made of two
distinct characters, scanning left to right with non-overlapping matches.
This is the only form `add_gitignore_patterns` uses
(the needles are the two-character strings backslash-star and
backslash-question-mark). -/
def replace2 [BEq α] (a b : α) (repl : List α) : List α → List α
  | [] => []
  | [c] => [c]
  | c :: d :: t =>
    if c == a && d == b then repl ++ replace2 a b repl t
    else c :: replace2 a b repl (d :: t)

/-- ASCII whitespace recognised by Python `str.strip`. -/
def pyIsSpace (c : Char) : Bool :=
  c == ' ' || c == '\t' || c == '\n' || c == '\r' || c == '\x0b' || c == '\x0c'

/-- Python `str.strip` on a character list. -/
def pyStrip (l : List Char) : List Char :=
  ((l.dropWhile pyIsSpace).reverse.dropWhile pyIsSpace).reverse

/-- Python `str.strip` on a `String`. -/
def pyStripStr (s : String) : String :=
  ⟨pyStrip s.toList⟩

/-- Python `str.lower` restricted to ASCII letters, which is all the
program's inputs use. -/
def toLowerList (l : List Char) : List Char :=
  l.map Char.toLower

/-! ### token_utils.py -/

/-- Maximum token limit for the model, from `token_utils.py`. -/
def MAX_TOKENS : ℕ := 1800000

/-! ### TokenBudgetLoader : load_files_under_token_limit -/

/-- Core loop of `load_files_under_token_limit`: starting from the running
total `total` (initialised with the base project-metadata cost), walk the
selection in order; a candidate is accepted only if the new total stays
within `limit` (the code's `MAX_TOKENS * 0.95`); the first candidate that
would breach the bound stops the loop (`break` in the source).  Returns the
accepted candidates in order together with the final running total.
Accepted content is recorded as the list of accepted names; `cost` models
`calculate_tokens (read_file_content f)`. -/
def loadFilesLoop (cost : String → ℕ) (limit : ℚ) : ℕ → List String → List String × ℕ
  | total, [] => ([], total)
  | total, f :: fs =>
    if ((total + cost f : ℕ) : ℚ) ≤ limit then
      let r := loadFilesLoop cost limit (total + cost f) fs
      (f :: r.1, r.2)
    else
      ([], total)

/-- The selection step of `load_files_under_token_limit`: when the list of
AI-selected files is empty (Python falsiness of the empty list) the
heuristic important-files list is used instead, then the budget loop runs. -/
def load_files_under_token_limit (aiSelected importantFiles : List String)
    (cost : String → ℕ) (limit : ℚ) (base : ℕ) : List String × ℕ :=
  loadFilesLoop cost limit base (if aiSelected.isEmpty then importantFiles else aiSelected)

/-! ### RequestClient : call_gemini_api -/

/-- One network answer as `call_gemini_api` distinguishes them:
status 429 (`quota`), status 200 with the expected nested envelope carrying
extracted text (`ok`), status 200 with a mismatched envelope (`malformed`,
carrying the first hundred characters of the dumped body), or any other
status with its body (`httpError`). -/
inductive RemoteResponse : Type where
  | quota : RemoteResponse
  | ok : String → RemoteResponse
  | malformed : String → RemoteResponse
  | httpError : ℕ → String → RemoteResponse
deriving DecidableEq

/-- Outcome of `call_gemini_api`: the extracted text of a successful
response, or the message of the exception the call raises. -/
inductive ApiOutcome : Type where
  | success : String → ApiOutcome
  | error : String → ApiOutcome
deriving DecidableEq

/-- Exception message built for a non-200/429 status
(`API Error: {status} - {body}` in the source). -/
def httpErrorMsg (status : ℕ) (body : String) : String :=
  ("API Error: ") ++ toString status ++ (" - ") ++ body

/-- Exception message built for a 200 response whose envelope does not
match (`Unexpected response format: ...` in the source; `dump` stands for
the first hundred characters of the dumped response). -/
def parseErrorMsg (dump : String) : String :=
  ("Unexpected response format: ") ++ dump ++ ("...")

/-- Message raised when the retry loop exhausts its three attempts. -/
def retriesExhaustedMsg : String :=
  "Failed to call Gemini API after 3 attempts"

/-- The source's retry test `"quota exceeded" in str(e).lower()`. -/
def containsQuotaExceeded (s : String) : Bool :=
  listContainsSub (("quota exceeded").toList) (toLowerList s.toList)

/-- Retry loop of `call_gemini_api`.  `resp n` is the remote service's
answer to the `n`-th network attempt (0-based); the second state component
counts attempts made.  The fuel is `max_retries - retry_count`, initially 3:
a 429 consumes one retry and continues; a well-formed 200 returns its text;
any other branch raises an exception that is re-raised unless the handler's
test fires — `retry_count < max_retries - 1` (here `1 ≤ fuel`) and the
message contains `quota exceeded` — in which case it, too, is retried.
Fuel 0 is the loop falling through to the final raise. -/
def apiAttempts (resp : ℕ → RemoteResponse) : ℕ → ℕ → ApiOutcome × ℕ
  | 0, a => (.error retriesExhaustedMsg, a)
  | fuel + 1, a =>
    match resp a with
    | .quota => apiAttempts resp fuel (a + 1)
    | .ok t => (.success t, a + 1)
    | .malformed dump =>
      if 1 ≤ fuel ∧ containsQuotaExceeded (parseErrorMsg dump) = true then
        apiAttempts resp fuel (a + 1)
      else
        (.error (parseErrorMsg dump), a + 1)
    | .httpError status body =>
      if 1 ≤ fuel ∧ containsQuotaExceeded (httpErrorMsg status body) = true then
        apiAttempts resp fuel (a + 1)
      else
        (.error (httpErrorMsg status body), a + 1)

/-- `call_gemini_api`: the outgoing prompt's token count is checked against
`MAX_TOKENS` before any network attempt (raising locally on excess, with no
attempt made); otherwise the retry loop runs with `max_retries = 3`.
The numeric formatting of the local error message is elided. -/
def call_gemini_api (promptTokens : ℕ) (resp : ℕ → RemoteResponse) : ApiOutcome × ℕ :=
  if MAX_TOKENS < promptTokens then (.error ("Prompt exceeds token limit"), 0)
  else apiAttempts resp 3 0

/-! ### A small regular-expression dialect

The program builds regular expressions as strings (in
`add_gitignore_patterns`) or keeps them as literals (the importance
patterns of `identify_important_files_fallback`) and applies them with
`re.search`.  The dialect those expressions use is small: literals,
backslash escapes, the anchors at the start and end of the string, the
`.` wildcard, the postfix `*`, top-level alternation `|` and parenthesised
groups containing alternation.  The parser and matcher below implement
exactly this dialect.  `.` is modelled as matching any character (the
program's paths contain no newline, where Python's `.` would differ), and
the end anchor as end-of-string (no trailing-newline special case). -/

/-- Element of a parsed regular expression: the `.` wildcard, the two
anchors, a literal character, a starred element, or a parenthesised group
holding a list of alternatives (each a sequence of elements). -/
inductive RElem : Type where
  | dot : RElem
  | bol : RElem
  | eol : RElem
  | lit : Char → RElem
  | star : RElem → RElem
  | group : List (List RElem) → RElem

/-- Apply a postfix `*` to the most recently parsed element of the current
(reversed) sequence.  On an empty sequence Python's `re` would reject the
pattern; the model keeps a literal `*`, a case no expression the program
builds ever reaches. -/
def starify (cur : List RElem) : List RElem :=
  match cur with
  | e :: rest => .star e :: rest
  | [] => [.lit '*']

/-- Close the currently open sequence and any open groups at end of input:
the current (reversed) sequence becomes the last alternative; unterminated
groups (which Python would reject, and the program never builds) are closed
implicitly. -/
def closeParse : List RElem → List (List RElem) → List (List RElem × List (List RElem)) → List (List RElem)
  | cur, alts, [] => alts ++ [cur.reverse]
  | cur, alts, (cur', alts') :: stack => closeParse (.group (alts ++ [cur.reverse]) :: cur') alts' stack

/-- Single-pass parser for the dialect.  State: remaining input, the
current alternative's elements in reverse, the completed alternatives of
the current nesting level, and a stack of suspended outer levels (one entry
per open group). -/
def parseRegexAux : List Char → List RElem → List (List RElem) → List (List RElem × List (List RElem)) → List (List RElem)
  | [], cur, alts, stack => closeParse cur alts stack
  | c :: cs, cur, alts, stack =>
    if c = '\\' then
      match cs with
      | [] => closeParse (.lit '\\' :: cur) alts stack
      | d :: cs' => parseRegexAux cs' (.lit d :: cur) alts stack
    else if c = '|' then parseRegexAux cs [] (alts ++ [cur.reverse]) stack
    else if c = '(' then parseRegexAux cs [] [] ((cur, alts) :: stack)
    else if c = ')' then
      match stack with
      | (cur', alts') :: stack' => parseRegexAux cs (.group (alts ++ [cur.reverse]) :: cur') alts' stack'
      | [] => parseRegexAux cs (.lit ')' :: cur) alts []
    else if c = '^' then parseRegexAux cs (.bol :: cur) alts stack
    else if c = '$' then parseRegexAux cs (.eol :: cur) alts stack
    else if c = '.' then parseRegexAux cs (.dot :: cur) alts stack
    else if c = '*' then parseRegexAux cs (starify cur) alts stack
    else parseRegexAux cs (.lit c :: cur) alts stack

/-- Parse a regular expression of the dialect into its list of top-level
alternatives. -/
def parseRegex0 (cs : List Char) : List (List RElem) :=
  parseRegexAux cs [] [] []

/-- Fuel-bounded backtracking matcher: does the element sequence match the
string `s` starting at position `p`?  Fuel bounds the recursion depth; every
use below either proves its fuel sufficient or evaluates on concrete input. -/
def reMatchF (s : List Char) : ℕ → List RElem → ℕ → Bool
  | 0, _, _ => false
  | _ + 1, [], _ => true
  | fuel + 1, .bol :: es, p => (p == 0) && reMatchF s fuel es p
  | fuel + 1, .eol :: es, p => (p == s.length) && reMatchF s fuel es p
  | fuel + 1, .dot :: es, p =>
    if p < s.length then reMatchF s fuel es (p + 1) else false
  | fuel + 1, .lit c :: es, p =>
    (s[p]? == some c) && reMatchF s fuel es (p + 1)
  | fuel + 1, .star e :: es, p =>
    reMatchF s fuel es p || reMatchF s fuel (e :: .star e :: es) p
  | fuel + 1, .group alts :: es, p =>
    alts.any fun alt => reMatchF s fuel (alt ++ es) p

/-- Recursion-depth budget used by `reSearch`; proved large enough for the
accepting runs this development constructs. -/
def searchFuel (s : List Char) (es : List RElem) : ℕ :=
  (s.length + 2) * (es.length + 2)

/-- Model of `re.search` over a parsed expression: some alternative matches
at some start position of `s`. -/
def reSearch (alts : List (List RElem)) (s : List Char) : Bool :=
  (List.range (s.length + 1)).any fun p =>
    alts.any fun es => reMatchF s (searchFuel s es) es p

/-- Model of `re.search(pattern, s)` on `String`s. -/
def reSearchStr (pattern s : String) : Bool :=
  reSearch (parseRegex0 pattern.toList) s.toList

/-! ### PatternCompiler : add_gitignore_patterns -/

/-- Characters escaped by `re.escape` (Python 3.7+ behaviour: exactly the
regex special characters). -/
def pySpecialChars : List Char :=
  ['(', ')', '[', ']', '{', '}', '?', '*', '+', '-', '|', '^', '$', '\\', '.', '&', '~', '#',
   ' ', '\t', '\n', '\r', '\x0b', '\x0c']

/-- Model of `re.escape`: prefix every special character with a backslash. -/
def reEscape (l : List Char) : List Char :=
  concatMap (fun c => if c ∈ pySpecialChars then ['\\', c] else [c]) l

/-- The two glob translations of `add_gitignore_patterns`, in source order:
escaped `*` becomes `.*`, then escaped `?` becomes `.`. -/
def translateGlob (l : List Char) : List Char :=
  replace2 '\\' '?' ['.'] (replace2 '\\' '*' ['.', '*'] l)

/-- The pattern of a stripped ignore line after removing a leading root
anchor `/` (the source's `pattern.startswith('/')` branch). -/
def rawPatternOfLine (line : List Char) : List Char :=
  if (pyStrip line).head? = some '/' then (pyStrip line).tail else pyStrip line

/-- The literal pattern text a matcher is generated from: the stripped line
after removing a leading root anchor `/` and a trailing directory marker
`/`; `none` when the line is skipped (blank or comment). -/
def strippedPatternOfLine (line : List Char) : Option (List Char) :=
  if pyStrip line = [] ∨ (pyStrip line).head? = some '#' then none
  else if (rawPatternOfLine line).getLast? = some '/' then
    some (rawPatternOfLine line).dropLast
  else
    some (rawPatternOfLine line)

/-- Per-line body of `add_gitignore_patterns`: strip the line, skip blanks
and comments, strip a leading `/`, detect and strip a trailing `/` (the
directory marker), escape, translate globs, and wrap in the directory or
file regular-expression shape of the source
(`^p$|^p/|/p/` for directories, `^p$|/p$` for files). -/
def gitignoreRegexOfLine (line : List Char) : Option (List Char) :=
  if pyStrip line = [] ∨ (pyStrip line).head? = some '#' then none
  else if (rawPatternOfLine line).getLast? = some '/' then
    some (('^' :: translateGlob (reEscape (rawPatternOfLine line).dropLast)
            ++ '$' :: '|' :: '^' :: translateGlob (reEscape (rawPatternOfLine line).dropLast) ++ ['/'])
          ++ '|' :: '/' :: translateGlob (reEscape (rawPatternOfLine line).dropLast) ++ ['/'])
  else
    some ('^' :: translateGlob (reEscape (rawPatternOfLine line))
          ++ '$' :: '|' :: '/' :: translateGlob (reEscape (rawPatternOfLine line)) ++ ['$'])

/-- Per-character image of `re.escape` followed by the star translation
only: `*` becomes `.*`, other special characters stay escaped, plain
characters pass through.  Used to characterise the first `replace`. -/
def imageA (c : Char) : List Char :=
  if c = '*' then ['.', '*']
  else if c ∈ pySpecialChars then ['\\', c]
  else [c]

/-- Per-character image of the whole escape-and-translate chain of
`add_gitignore_patterns`: `*` becomes `.*`, `?` becomes `.`, other special
characters stay escaped, plain characters pass through. -/
def imageF (c : Char) : List Char :=
  if c = '*' then ['.', '*']
  else if c = '?' then ['.']
  else if c ∈ pySpecialChars then ['\\', c]
  else [c]

/-- The regular-expression element one source pattern character compiles
to: `*` to a starred wildcard, `?` to the wildcard, anything else to its
literal. -/
def elemOf1 (c : Char) : RElem :=
  if c = '*' then .star .dot
  else if c = '?' then .dot
  else .lit c

/-! ### DirectoryScanner : analyze_project_structure -/

mutual
/-- A directory tree: the subdirectories (named, in filesystem iteration
order) and the plain files of one directory. -/
inductive FsTree : Type where
  | node : DirList → List String → FsTree
/-- The subdirectory list of a directory. -/
inductive DirList : Type where
  | nil : DirList
  | cons : String → FsTree → DirList → DirList
end

/-- Concatenation of subdirectory lists. -/
def DirList.append : DirList → DirList → DirList
  | .nil, l => l
  | .cons d t r, l => .cons d t (DirList.append r l)

/-- Relative-path join as `os.path.join(rel_path, file)` behaves in the
scanner: at the project root (`rel_path == '.'`, modelled as the empty
relative path) the bare name is used. -/
def joinRel (rel f : String) : String :=
  if rel = "" then f else rel ++ ("/") ++ f

mutual
/-- The `os.walk` loop body of `analyze_project_structure`: the current
directory's files are tested individually against `shouldIgnore` on their
path relative to the root and appended to the snapshot; then each
subdirectory is tested against `shouldIgnore` on its joined absolute path
(`os.path.join(root, d)` in the source) and, when it survives, descended
into.  `abs` is the absolute path of the current directory, `rel` its
relative path (empty at the root). -/
def walkTree (shouldIgnore : String → Bool) (abs rel : String) : FsTree → List String
  | .node dirs files =>
    ((files.filter fun f => !shouldIgnore (joinRel rel f)).map fun f => joinRel rel f)
      ++ walkDirs shouldIgnore abs rel dirs
/-- Traverse the surviving subdirectories of one directory in order; a
subdirectory whose absolute path matches is pruned, contributing nothing. -/
def walkDirs (shouldIgnore : String → Bool) (abs rel : String) : DirList → List String
  | .nil => []
  | .cons d t rest =>
    (if shouldIgnore (abs ++ ("/") ++ d) then []
     else walkTree shouldIgnore (abs ++ ("/") ++ d) (joinRel rel d) t)
      ++ walkDirs shouldIgnore abs rel rest
end

/-- `analyze_project_structure`: scan the whole project from its root. -/
def analyze_project_structure (shouldIgnore : String → Bool) (rootDir : String) (t : FsTree) : List String :=
  walkTree shouldIgnore rootDir ("") t

/-! ### RelevanceSelector : ask_ai_for_important_files and its fallback -/

/-- Separator normalisation of a suggested path:
`file.replace('/', os.sep).replace('\\', os.sep)` with `os.sep = '/'`. -/
def normalizeSeparators (s : String) : String :=
  ⟨s.toList.map fun c => if c = '\\' then '/' else c⟩

/-- Python `in` on `String`s. -/
def pyContains (needle hay : String) : Bool :=
  listContainsSub needle.toList hay.toList

/-- Python `str.endswith` on `String`s. -/
def pyEndsWith (needle hay : String) : Bool :=
  listEndsWith needle.toList hay.toList

/-- Reconciliation of one suggested path against the snapshot, from
`ask_ai_for_important_files`: after separator normalisation, an exact
membership test first; otherwise the first snapshot path (in traversal
order) that contains the candidate as a substring or ends with it;
`none` when the candidate stays unresolved (it is dropped with a warning). -/
def resolveCandidate (fileTree : List String) (file : String) : Option String :=
  let nf := normalizeSeparators file
  if nf ∈ fileTree then some nf
  else fileTree.find? fun existing => pyContains nf existing || pyEndsWith nf existing

/-- Parsing of the advisory response into candidate lines:
`response.strip().split('\n')`, then strip each line and keep the
non-empty ones. -/
def parseFileList (response : String) : List String :=
  (((pyStripStr response).splitOn ("\n")).map pyStripStr).filter fun l => l ≠ ""

/-- The fixed importance patterns of `identify_important_files_fallback`,
exactly as written in the source. -/
def important_patterns : List String :=
  ["package\\.json$", "setup\\.py$", "requirements\\.txt$", "Gemfile$",
   "composer\\.json$", "\\.gitignore$", "\\.env\\.example$", "Dockerfile$",
   "docker-compose\\.yml$", "\\.eslintrc", "tsconfig\\.json$", "webpack\\.config\\.js$",
   "index\\.(js|ts|py|php|html)$", "app\\.(js|ts|py|php)$", "main\\.(js|ts|py|php)$",
   "README\\.md$", "CONTRIBUTING\\.md$", "LICENSE$",
   "^src/", "^app/", "^lib/", "^core/", "^controllers/", "^models/",
   "^views/", "^templates/", "^public/", "^tests/", "^docs/"]

/-- `identify_important_files_fallback`: keep every snapshot path matched
by at least one importance pattern.  A pure function of the snapshot: it
performs no network access. -/
def identify_important_files_fallback (fileTree : List String) : List String :=
  fileTree.filter fun p => important_patterns.any fun pat => reSearchStr pat p

/-- `ask_ai_for_important_files`: the advisory call either returns response
text or raises; on success the response is parsed into candidate lines and
each is reconciled against the snapshot (unresolved candidates dropped); on
any exception the deterministic heuristic fallback on the snapshot is
returned instead and the error is not propagated. -/
def ask_ai_for_important_files (fileTree : List String) (apiResult : Except String String) : List String :=
  match apiResult with
  | .ok response => (parseFileList response).filterMap (resolveCandidate fileTree)
  | .error _ => identify_important_files_fallback fileTree

/-! ### EmbeddingIndex : _get_fallback_embeddings -/

/-- The fixed vocabulary of language-construct keywords from
`_get_fallback_embeddings`. -/
def fallbackKeywords : List String :=
  ["class", "function", "def", "import", "export", "const", "var", "let",
   "return", "if", "else", "for", "while", "try", "catch", "async",
   "await", "component", "model", "controller", "view", "route",
   "database", "schema", "api", "http", "request", "response"]

/-- Keyword-frequency vector of one text: each keyword's `str.count` in the
lower-cased text. -/
def fallbackCounts (text : String) : List ℕ :=
  fallbackKeywords.map fun k => pyCount k.toList (toLowerList text.toList)

/-- Sum of squares of a count vector. -/
def sumSq (l : List ℕ) : ℕ :=
  (l.map fun x => x * x).sum

/-- `_get_fallback_embeddings` on one text, idealised over the reals:
the count vector is divided by `max(sqrt(sum of squares), 1e-6)` and
zero-padded to width 64.  (The source computes in floating point; the reals
are the idealisation, with `1e-6` as the rational `1/1000000`.) -/
noncomputable def _get_fallback_embeddings (text : String) : List ℝ :=
  ((fallbackCounts text).map fun x : ℕ =>
    (x : ℝ) / max (Real.sqrt (sumSq (fallbackCounts text))) (1 / 1000000)) ++
  List.replicate (64 - fallbackKeywords.length) 0

/-! ## Lemmas and claim theorems -/

/-! ### TokenBudgetLoader lemmas -/

theorem loadFilesLoop_le (cost : String → ℕ) (limit : ℚ) :
    ∀ (files : List String) (base : ℕ), (base : ℚ) ≤ limit →
      (((loadFilesLoop cost limit base files).2 : ℕ) : ℚ) ≤ limit := by
  intro files
  induction files with
  | nil => intro base h; simpa [loadFilesLoop] using h
  | cons f fs ih =>
    intro base h
    by_cases hc : ((base + cost f : ℕ) : ℚ) ≤ limit
    · simp only [loadFilesLoop]
      rw [if_pos hc]
      exact ih (base + cost f) hc
    · simp only [loadFilesLoop]
      rw [if_neg hc]
      exact h

theorem loadFilesLoop_accepted_take (cost : String → ℕ) (limit : ℚ) :
    ∀ (files : List String) (base : ℕ),
      (loadFilesLoop cost limit base files).1 =
        files.take (loadFilesLoop cost limit base files).1.length := by
  intro files
  induction files with
  | nil => intro base; simp [loadFilesLoop]
  | cons f fs ih =>
    intro base
    by_cases hc : ((base + cost f : ℕ) : ℚ) ≤ limit
    · simp only [loadFilesLoop, if_pos hc, List.length_cons, List.take_succ_cons]
      exact congrArg (f :: ·) (ih (base + cost f))
    · simp only [loadFilesLoop]
      rw [if_neg hc]
      rfl

theorem loadFilesLoop_total (cost : String → ℕ) (limit : ℚ) :
    ∀ (files : List String) (base : ℕ),
      (loadFilesLoop cost limit base files).2 =
        base + ((loadFilesLoop cost limit base files).1.map cost).sum := by
  intro files
  induction files with
  | nil => intro base; simp [loadFilesLoop]
  | cons f fs ih =>
    intro base
    by_cases hc : ((base + cost f : ℕ) : ℚ) ≤ limit
    · simp only [loadFilesLoop, if_pos hc, List.map_cons, List.sum_cons]
      rw [ih (base + cost f)]
      omega
    · simp only [loadFilesLoop]
      rw [if_neg hc]
      simp

theorem loadFilesLoop_next_breach (cost : String → ℕ) (limit : ℚ) :
    ∀ (files : List String) (base : ℕ) (f : String),
      files[(loadFilesLoop cost limit base files).1.length]? = some f →
      ¬ ((((loadFilesLoop cost limit base files).2 + cost f : ℕ) : ℚ) ≤ limit) := by
  intro files
  induction files with
  | nil => intro base f hf; simp at hf
  | cons g fs ih =>
    intro base f hf
    by_cases hc : ((base + cost g : ℕ) : ℚ) ≤ limit
    · simp only [loadFilesLoop, if_pos hc, List.length_cons, List.getElem?_cons_succ] at hf ⊢
      exact ih (base + cost g) f hf
    · simp only [loadFilesLoop, if_neg hc, List.length_nil, List.getElem?_cons_zero] at hf ⊢
      cases hf
      exact hc

theorem loadFilesLoop_mem (cost : String → ℕ) (limit : ℚ) :
    ∀ (files : List String) (base : ℕ) (f : String),
      f ∈ (loadFilesLoop cost limit base files).1 → f ∈ files := by
  intro files
  induction files with
  | nil => intro base f hf; simp [loadFilesLoop] at hf
  | cons g fs ih =>
    intro base f hf
    by_cases hc : ((base + cost g : ℕ) : ℚ) ≤ limit
    · simp only [loadFilesLoop, if_pos hc, List.mem_cons] at hf
      rcases hf with h | h
      · exact h ▸ List.mem_cons_self _ _
      · exact List.mem_cons_of_mem _ (ih _ _ h)
    · simp only [loadFilesLoop] at hf
      rw [if_neg hc] at hf
      simp at hf

/-! ### C1 -/

/-- C1 fails as stated: when the base project-metadata cost alone already
exceeds `C * m` (here `C = 1000`, `m = 0.95`, base cost `951`), the loader
accepts nothing, yet the returned cumulative cost including the base is
`951 > 950`. -/
theorem c1_counterexample :
    ¬ ((((load_files_under_token_limit [("a")] [] (fun _ => 10)
        ((1000 : ℚ) * (95 / 100)) 951).2 : ℕ) : ℚ) ≤ (1000 : ℚ) * (95 / 100)) := by
  norm_num [load_files_under_token_limit, loadFilesLoop]

/-- C1 (amended): provided the base project-metadata cost itself does not
exceed `C * m`, the running total of the token-budget loader — the
cumulative cost of the accepted set including the base — stays at most
`C * m` after every iteration of the loading loop (the total after `k`
iterations is the loop's total on the selection's first `k` candidates) and
in the returned result. -/
theorem c1_budget_invariant (cost : String → ℕ) (limit : ℚ) (base : ℕ)
    (h : (base : ℚ) ≤ limit) :
    (∀ (files : List String) (k : ℕ),
      (((loadFilesLoop cost limit base (files.take k)).2 : ℕ) : ℚ) ≤ limit) ∧
    (∀ (aiSelected importantFiles : List String),
      (((load_files_under_token_limit aiSelected importantFiles cost limit base).2 : ℕ) : ℚ) ≤ limit) := by
  refine ⟨fun files k => loadFilesLoop_le cost limit _ base h, fun ai imp => ?_⟩
  unfold load_files_under_token_limit
  exact loadFilesLoop_le cost limit _ base h

/-- Witness for C1 at the spec's own example: base `0 ≤ 950`, candidates
costing 400 each, loaded set's total within bound. -/
theorem c1_budget_invariant_witness :
    ((0 : ℕ) : ℚ) ≤ (1000 : ℚ) * (95 / 100) ∧
    (((load_files_under_token_limit [("a"), ("b"), ("c")] [] (fun _ => 400)
        ((1000 : ℚ) * (95 / 100)) 0).2 : ℕ) : ℚ) ≤ (1000 : ℚ) * (95 / 100) :=
  ⟨by norm_num,
   (c1_budget_invariant (fun _ => 400) ((1000 : ℚ) * (95 / 100)) 0 (by norm_num)).2
     [("a"), ("b"), ("c")] []⟩

/-! ### C2 -/

/-- C2: the token-budget loader accepts a prefix of the ordered selection
(candidates strictly in list order); the returned total is the base plus
the accepted costs; the first unaccepted candidate, when one exists, is
exactly a candidate whose cost would breach the bound — and the loop having
stopped there, no later candidate is in the accepted prefix; on the spec's
example (`C`·`m` = 950, base 0, costs 400 each) exactly the first two
candidates are accepted. -/
theorem c2_greedy_order_and_stop (cost : String → ℕ) (limit : ℚ) (base : ℕ)
    (files : List String) :
    ((loadFilesLoop cost limit base files).1 =
      files.take (loadFilesLoop cost limit base files).1.length) ∧
    ((loadFilesLoop cost limit base files).2 =
      base + ((loadFilesLoop cost limit base files).1.map cost).sum) ∧
    (∀ f, files[(loadFilesLoop cost limit base files).1.length]? = some f →
      ¬ ((((loadFilesLoop cost limit base files).2 + cost f : ℕ) : ℚ) ≤ limit)) ∧
    loadFilesLoop (fun _ => 400) ((1000 : ℚ) * (95 / 100)) 0 [("a"), ("b"), ("c")] =
      ([("a"), ("b")], 800) := by
  refine ⟨loadFilesLoop_accepted_take cost limit files base,
          loadFilesLoop_total cost limit files base,
          fun f => loadFilesLoop_next_breach cost limit files base f, ?_⟩
  norm_num [loadFilesLoop]

/-- Witness for C2: on the spec example the third candidate is exactly a
breaching one (800 + 400 > 950). -/
theorem c2_greedy_order_and_stop_witness :
    ¬ ((((loadFilesLoop (fun _ => 400) ((1000 : ℚ) * (95 / 100)) 0
        [("a"), ("b"), ("c")]).2 + 400 : ℕ) : ℚ) ≤ (1000 : ℚ) * (95 / 100)) := by
  have hc := c2_greedy_order_and_stop (fun _ => 400) ((1000 : ℚ) * (95 / 100)) 0
    [("a"), ("b"), ("c")]
  refine hc.2.2.1 ("c") ?_
  rw [hc.2.2.2]
  rfl

/-! ### C10 -/

/-- C10: when the AI-selected list is empty at loading time, the loader
substitutes the heuristic important-files list as its input selection, so
every loaded file is drawn from that list. -/
theorem c10_empty_selection_uses_fallback (ai imp : List String) (cost : String → ℕ)
    (limit : ℚ) (base : ℕ) (h : ai = []) :
    load_files_under_token_limit ai imp cost limit base = loadFilesLoop cost limit base imp ∧
    ∀ f ∈ (load_files_under_token_limit ai imp cost limit base).1, f ∈ imp := by
  subst h
  refine ⟨by simp [load_files_under_token_limit], fun f hf => ?_⟩
  refine loadFilesLoop_mem cost limit imp base f ?_
  simpa [load_files_under_token_limit] using hf

/-- Witness for C10 at a concrete empty selection. -/
theorem c10_empty_selection_uses_fallback_witness :
    load_files_under_token_limit [] [("x")] (fun _ => 1) (100 : ℚ) 0 =
      loadFilesLoop (fun _ => 1) (100 : ℚ) 0 [("x")] :=
  (c10_empty_selection_uses_fallback [] [("x")] (fun _ => 1) (100 : ℚ) 0 rfl).1

/-! ### RequestClient lemmas -/

theorem apiAttempts_attempts_le (resp : ℕ → RemoteResponse) :
    ∀ (fuel a : ℕ), (apiAttempts resp fuel a).2 ≤ a + fuel := by
  intro fuel
  induction fuel with
  | zero => intro a; simp [apiAttempts]
  | succ n ih =>
    intro a
    cases h : resp a with
    | quota =>
      simp only [apiAttempts, h]
      exact le_trans (ih (a + 1)) (by omega)
    | ok t => simp [apiAttempts, h]
    | malformed dump =>
      simp only [apiAttempts, h]
      split
      · exact le_trans (ih (a + 1)) (by omega)
      · simp
    | httpError status body =>
      simp only [apiAttempts, h]
      split
      · exact le_trans (ih (a + 1)) (by omega)
      · simp

theorem apiAttempts_quota_skip (resp : ℕ → RemoteResponse) :
    ∀ (k fuel a : ℕ), k ≤ fuel → (∀ i, i < k → resp (a + i) = .quota) →
      apiAttempts resp fuel a = apiAttempts resp (fuel - k) (a + k) := by
  intro k
  induction k with
  | zero => intro fuel a _ _; simp
  | succ n ih =>
    intro fuel a hk hq
    obtain ⟨m, rfl⟩ : ∃ m, fuel = m + 1 := ⟨fuel - 1, by omega⟩
    have h0 : resp a = .quota := by simpa using hq 0 (by omega)
    simp only [apiAttempts, h0]
    have hrest := ih m (a + 1) (by omega) (fun i hi => by
      have := hq (i + 1) (by omega)
      simpa [Nat.add_assoc, Nat.add_comm 1 i] using this)
    rw [hrest]
    have h1 : m - n = m + 1 - (n + 1) := by omega
    have h2 : a + 1 + n = a + (n + 1) := by omega
    rw [h1, h2]

/-! ### C3 -/

/-- C3 fails as stated: with three consecutive quota failures the three
permitted attempts are exhausted, so the subsequent success is never
requested — the call raises instead of returning the final attempt's
text. -/
theorem c3_counterexample :
    call_gemini_api 0 (fun n => if n < 3 then .quota else .ok ("done")) =
      (.error retriesExhaustedMsg, 3) := by
  decide

/-- C3 (amended): the client makes at most 3 network attempts in total; a
run answering at most two consecutive quota failures followed by a success
yields that success's extracted text; three consecutive quota failures
exhaust the bound and the call fails with the retries-exhausted error. -/
theorem c3_retry_bound (promptTokens : ℕ) (resp : ℕ → RemoteResponse)
    (hp : promptTokens ≤ MAX_TOKENS) :
    ((call_gemini_api promptTokens resp).2 ≤ 3) ∧
    (∀ k t, k ≤ 2 → (∀ i, i < k → resp i = .quota) → resp k = .ok t →
      call_gemini_api promptTokens resp = (.success t, k + 1)) ∧
    ((∀ i, i < 3 → resp i = .quota) →
      call_gemini_api promptTokens resp = (.error retriesExhaustedMsg, 3)) := by
  have hcall : call_gemini_api promptTokens resp = apiAttempts resp 3 0 := by
    unfold call_gemini_api
    rw [if_neg (by omega)]
  refine ⟨?_, ?_, ?_⟩
  · rw [hcall]
    simpa using apiAttempts_attempts_le resp 3 0
  · intro k t hk hq hok
    rw [hcall, apiAttempts_quota_skip resp k 3 0 (by omega) (by simpa using hq)]
    obtain ⟨m, hm⟩ : ∃ m, 3 - k = m + 1 := ⟨2 - k, by omega⟩
    rw [hm]
    simp only [apiAttempts, Nat.zero_add, hok]
  · intro hq
    rw [hcall, apiAttempts_quota_skip resp 3 3 0 le_rfl (by simpa using hq)]
    simp [apiAttempts]

/-- Witness for C3: two quota failures then a success returns the success
on the third and last attempt. -/
theorem c3_retry_bound_witness :
    call_gemini_api 0 (fun n => if n < 2 then .quota else .ok ("done")) =
      (.success ("done"), 3) := by
  refine (c3_retry_bound 0 (fun n => if n < 2 then .quota else .ok ("done"))
    (Nat.zero_le _)).2.1 2 ("done") le_rfl ?_ ?_
  · intro i hi
    simp [hi]
  · norm_num

/-! ### C6 -/

/-- C6 fails as stated: a non-quota failure (status 500) whose body happens
to contain the text `Quota exceeded` is retried by the exception handler's
substring test, so a second network attempt is made and the call even
succeeds — it does not raise after a single attempt. -/
theorem c6_counterexample :
    call_gemini_api 0
        (fun n => if n == 0 then .httpError 500 ("Quota exceeded") else .ok ("done")) =
      (.success ("done"), 2) := by
  decide

/-- C6 (amended): a transport failure (non-success status other than 429)
or a parse failure (success status, mismatched envelope) on the first
attempt is fatal after that single attempt — provided its exception message
does not contain the substring `quota exceeded` case-insensitively, which
is the handler's retry test. -/
theorem c6_nonquota_not_retried (promptTokens : ℕ) (resp : ℕ → RemoteResponse)
    (hp : promptTokens ≤ MAX_TOKENS) :
    (∀ status body, resp 0 = .httpError status body →
      containsQuotaExceeded (httpErrorMsg status body) = false →
      call_gemini_api promptTokens resp = (.error (httpErrorMsg status body), 1)) ∧
    (∀ dump, resp 0 = .malformed dump →
      containsQuotaExceeded (parseErrorMsg dump) = false →
      call_gemini_api promptTokens resp = (.error (parseErrorMsg dump), 1)) := by
  have hcall : call_gemini_api promptTokens resp = apiAttempts resp 3 0 := by
    unfold call_gemini_api
    rw [if_neg (by omega)]
  constructor
  · intro status body h0 hq
    rw [hcall]
    simp only [apiAttempts, h0]
    rw [if_neg]
    rintro ⟨-, hcq⟩
    rw [hq] at hcq
    exact Bool.false_ne_true hcq
  · intro dump h0 hq
    rw [hcall]
    simp only [apiAttempts, h0]
    rw [if_neg]
    rintro ⟨-, hcq⟩
    rw [hq] at hcq
    exact Bool.false_ne_true hcq

/-- Witness for C6: a plain 404 failure raises after exactly one attempt. -/
theorem c6_nonquota_not_retried_witness :
    call_gemini_api 0 (fun _ => .httpError 404 ("not found")) =
      (.error (httpErrorMsg 404 ("not found")), 1) := by
  refine (c6_nonquota_not_retried 0 (fun _ => .httpError 404 ("not found"))
    (Nat.zero_le _)).1 404 ("not found") rfl ?_
  decide

/-! ### String-utility lemmas -/

theorem listStartsWith_self [BEq α] [LawfulBEq α] : ∀ (l : List α), listStartsWith l l = true := by
  intro l
  induction l with
  | nil => rfl
  | cons a as ih => simp [listStartsWith, ih]

theorem listEndsWith_self [BEq α] [LawfulBEq α] (l : List α) : listEndsWith l l = true := by
  unfold listEndsWith
  exact listStartsWith_self l.reverse

theorem pyEndsWith_self (s : String) : pyEndsWith s s = true :=
  listEndsWith_self s.toList

theorem find?_append_first_match (pred : String → Bool) :
    ∀ (t₁ : List String) (p : String) (t₂ : List String),
      (∀ q ∈ t₁, pred q = false) → pred p = true →
      (t₁ ++ p :: t₂).find? pred = some p := by
  intro t₁
  induction t₁ with
  | nil =>
    intro p t₂ _ hp
    simp [List.find?_cons_of_pos, hp]
  | cons a t ih =>
    intro p t₂ h hp
    have ha := h a (List.mem_cons_self a t)
    rw [List.cons_append, List.find?_cons_of_neg]
    · exact ih p t₂ (fun q hq => h q (List.mem_cons_of_mem a hq)) hp
    · simp [ha]

/-! ### C4 -/

/-- C4 fails as stated: the candidate `main.py` is a suffix of exactly one
snapshot path (`src/main.py`), but the traversal-order scan first meets
`main.pyx`, which contains the candidate as a substring, and resolves to it
instead of the unique suffix match. -/
theorem c4_counterexample :
    normalizeSeparators ("main.py") = ("main.py") ∧
    pyEndsWith ("main.py") ("src/main.py") = true ∧
    pyEndsWith ("main.py") ("main.pyx") = false ∧
    resolveCandidate [("main.pyx"), ("src/main.py")] ("main.py") = some ("main.pyx") ∧
    (("main.pyx") : String) ≠ ("src/main.py") := by
  refine ⟨by decide, by decide, by decide, by decide, by decide⟩

/-- C4 (amended): a candidate equal (post-normalisation) to some snapshot
path resolves as an exact match to that path; and a candidate that is a
suffix of exactly one snapshot path — and in addition is not a substring of
any snapshot path preceding that one in traversal order — resolves to that
unique suffix match. -/
theorem c4_candidate_resolution :
    (∀ (fileTree : List String) (cand : String),
      normalizeSeparators cand ∈ fileTree →
      resolveCandidate fileTree cand = some (normalizeSeparators cand)) ∧
    (∀ (t₁ t₂ : List String) (p cand : String),
      pyEndsWith (normalizeSeparators cand) p = true →
      (∀ q, q ∈ t₁ ∨ q ∈ t₂ → pyEndsWith (normalizeSeparators cand) q = false) →
      (∀ q ∈ t₁, pyContains (normalizeSeparators cand) q = false) →
      resolveCandidate (t₁ ++ p :: t₂) cand = some p) := by
  constructor
  · intro fileTree cand hm
    unfold resolveCandidate
    rw [if_pos hm]
  · intro t₁ t₂ p cand h1 h2 h3
    by_cases hm : normalizeSeparators cand ∈ t₁ ++ p :: t₂
    · have heq : normalizeSeparators cand = p := by
        rcases List.mem_append.mp hm with h | h
        · have := h2 _ (Or.inl h)
          rw [pyEndsWith_self] at this
          exact absurd this (by simp)
        · rcases List.mem_cons.mp h with h | h
          · exact h
          · have := h2 _ (Or.inr h)
            rw [pyEndsWith_self] at this
            exact absurd this (by simp)
      unfold resolveCandidate
      rw [if_pos hm, heq]
    · unfold resolveCandidate
      rw [if_neg hm]
      refine find?_append_first_match _ t₁ p t₂ (fun q hq => ?_) (by simp [h1])
      simp [h3 q hq, h2 q (Or.inl hq)]

/-- Witness for C4: an exact match and a unique-suffix match at concrete
snapshots. -/
theorem c4_candidate_resolution_witness :
    resolveCandidate [("b.py")] ("b.py") = some (normalizeSeparators ("b.py")) ∧
    resolveCandidate [("a/b.py")] ("b.py") = some ("a/b.py") := by
  constructor
  · exact c4_candidate_resolution.1 [("b.py")] ("b.py") (by decide)
  · exact c4_candidate_resolution.2 [] [] ("a/b.py") ("b.py") (by decide)
      (by intro q hq; rcases hq with h | h <;> simp at h)
      (by intro q hq; simp at hq)

/-! ### DirectoryScanner lemmas -/

mutual
theorem walkTree_not_ignored (ig : String → Bool) :
    ∀ (abs rel : String) (t : FsTree) (p : String), p ∈ walkTree ig abs rel t → ig p = false
  | abs, rel, .node dirs files, p, hp => by
    simp only [walkTree] at hp
    rcases List.mem_append.mp hp with h | h
    · rcases List.mem_map.mp h with ⟨f, hf, rfl⟩
      have := (List.mem_filter.mp hf).2
      simpa using this
    · exact walkDirs_not_ignored ig abs rel dirs p h
theorem walkDirs_not_ignored (ig : String → Bool) :
    ∀ (abs rel : String) (l : DirList) (p : String), p ∈ walkDirs ig abs rel l → ig p = false
  | abs, rel, .nil, p, hp => by simp [walkDirs] at hp
  | abs, rel, .cons d t rest, p, hp => by
    simp only [walkDirs] at hp
    rcases List.mem_append.mp hp with h | h
    · by_cases hig : ig (abs ++ ("/") ++ d)
      · rw [if_pos hig] at h
        simp at h
      · rw [if_neg hig] at h
        exact walkTree_not_ignored ig _ _ t p h
    · exact walkDirs_not_ignored ig abs rel rest p h
end

theorem walkDirs_append (ig : String → Bool) (abs rel : String) :
    ∀ (l₁ l₂ : DirList),
      walkDirs ig abs rel (DirList.append l₁ l₂) =
        walkDirs ig abs rel l₁ ++ walkDirs ig abs rel l₂
  | .nil, l₂ => by simp [DirList.append, walkDirs]
  | .cons d t rest, l₂ => by
    simp only [DirList.append, walkDirs, walkDirs_append ig abs rel rest l₂]
    simp [List.append_assoc]

/-! ### C5 -/

/-- C5: every path in the snapshot produced by the scanner fails every
compiled matcher (the matcher set is abstracted as the predicate `ig`,
applied to exactly the strings the source applies it to); and a
subdirectory whose joined path matches is pruned before descent — the
snapshot does not depend on anything beneath it, so no file under it ever
appears. -/
theorem c5_scanner_prunes (ig : String → Bool) (rootDir : String) :
    (∀ (t : FsTree) (p : String), p ∈ analyze_project_structure ig rootDir t → ig p = false) ∧
    (∀ (l₁ l₂ : DirList) (d : String) (sub : FsTree) (files : List String),
      ig (rootDir ++ ("/") ++ d) = true →
      analyze_project_structure ig rootDir (.node (DirList.append l₁ (.cons d sub l₂)) files) =
        analyze_project_structure ig rootDir (.node (DirList.append l₁ l₂) files)) := by
  constructor
  · intro t p hp
    exact walkTree_not_ignored ig rootDir ("") t p hp
  · intro l₁ l₂ d sub files hig
    unfold analyze_project_structure
    simp only [walkTree]
    congr 1
    rw [walkDirs_append, walkDirs_append]
    simp only [walkDirs, if_pos hig]
    simp

/-- Witness for C5 at a concrete tree: the ignored `build` subtree
contributes nothing, and a surviving path indeed fails the matcher. -/
theorem c5_scanner_prunes_witness :
    analyze_project_structure
        (fun s => (s == ("r/build")) || listEndsWith ((".png").toList) s.toList) ("r")
        (.node (DirList.append .nil (.cons ("build") (.node .nil [("x.o")]) .nil)) [("a.txt")]) =
      analyze_project_structure
        (fun s => (s == ("r/build")) || listEndsWith ((".png").toList) s.toList) ("r")
        (.node (DirList.append .nil .nil) [("a.txt")]) ∧
    (fun s => (s == ("r/build")) || listEndsWith ((".png").toList) s.toList) ("a.txt") = false := by
  constructor
  · exact (c5_scanner_prunes
        (fun s => (s == ("r/build")) || listEndsWith ((".png").toList) s.toList) ("r")).2
      .nil .nil ("build") (.node .nil [("x.o")]) [("a.txt")] (by decide)
  · exact (c5_scanner_prunes
        (fun s => (s == ("r/build")) || listEndsWith ((".png").toList) s.toList) ("r")).1
      (.node .nil [("a.txt")]) ("a.txt") (by decide)

/-! ### C9 -/

/-- C9: on any failure of the advisory request the selector does not
propagate the error: it returns the heuristic fallback, which is exactly
the snapshot paths matching at least one importance pattern — a pure,
total function of the snapshot alone (no further network access), possibly
empty. -/
theorem c9_fallback_on_failure (e : String) (fileTree : List String) :
    ask_ai_for_important_files fileTree (Except.error e) =
      identify_important_files_fallback fileTree ∧
    identify_important_files_fallback fileTree =
      fileTree.filter (fun p => important_patterns.any fun pat => reSearchStr pat p) ∧
    (fileTree = [] → ask_ai_for_important_files fileTree (Except.error e) = []) := by
  refine ⟨rfl, rfl, ?_⟩
  intro h
  subst h
  rfl

/-- Witness for C9 at a concrete failed call: the fallback flags the
configuration file and drops the binary. -/
theorem c9_fallback_on_failure_witness :
    ask_ai_for_important_files [("setup.py"), ("zzz.bin")] (Except.error ("boom")) =
      [("setup.py")] := by
  have h := c9_fallback_on_failure ("boom") [("setup.py"), ("zzz.bin")]
  rw [h.1, h.2.1]
  decide

/-! ### EmbeddingIndex lemmas -/

theorem sum_map_div_sq (l : List ℕ) (a : ℝ) :
    ((l.map fun x : ℕ => ((x : ℝ) / a) ^ 2).sum) = (sumSq l : ℝ) / a ^ 2 := by
  induction l with
  | nil => simp [sumSq]
  | cons x xs ih =>
    have hx : sumSq (x :: xs) = x * x + sumSq xs := by simp [sumSq]
    rw [List.map_cons, List.sum_cons, ih, hx, div_pow]
    push_cast
    ring

/-! ### C7 -/

/-- C7 fails as stated: the non-empty text `zyx` contains no vocabulary
keyword, so its count vector is zero, the guard makes the norm divisor
`1e-6`, and the produced vector is all zeros — its Euclidean norm is 0,
not 1. -/
theorem c7_counterexample :
    (("zyx") : String) ≠ ("") ∧
    ¬ ((((_get_fallback_embeddings ("zyx")).map fun x => x ^ 2).sum) = 1) := by
  constructor
  · decide
  · have hc : fallbackCounts ("zyx") = List.replicate 28 0 := by decide
    unfold _get_fallback_embeddings
    rw [hc]
    have hs : sumSq (List.replicate 28 0) = 0 := by decide
    rw [hs]
    simp [List.map_replicate, List.sum_replicate]

/-- C7 (amended): the fallback embedding is deterministic (identical input
text yields an identical vector), and every text whose keyword-count vector
is non-zero — in particular every text containing at least one vocabulary
keyword — produces a vector of unit Euclidean norm, of the fixed width 64.
Keyword-free texts produce the zero vector instead. -/
theorem c7_fallback_embedding (t : String) (h : sumSq (fallbackCounts t) ≠ 0) :
    (∀ t' : String, t' = t → _get_fallback_embeddings t' = _get_fallback_embeddings t) ∧
    ((_get_fallback_embeddings t).map fun x => x ^ 2).sum = 1 ∧
    (_get_fallback_embeddings t).length = 64 := by
  refine ⟨fun t' ht => ht ▸ rfl, ?_, ?_⟩
  · unfold _get_fallback_embeddings
    have hS1 : 1 ≤ sumSq (fallbackCounts t) := Nat.one_le_iff_ne_zero.mpr h
    have hsqrt1 : (1 : ℝ) ≤ Real.sqrt (sumSq (fallbackCounts t)) := by
      rw [show (1 : ℝ) = Real.sqrt 1 by simp]
      exact Real.sqrt_le_sqrt (by exact_mod_cast hS1)
    rw [max_eq_left (le_trans (by norm_num) hsqrt1)]
    rw [List.map_append, List.sum_append, List.map_map]
    rw [show ((fun x : ℝ => x ^ 2) ∘ fun x : ℕ =>
        (x : ℝ) / Real.sqrt (sumSq (fallbackCounts t))) = fun x : ℕ =>
        ((x : ℝ) / Real.sqrt (sumSq (fallbackCounts t))) ^ 2 from rfl]
    rw [sum_map_div_sq,
        Real.sq_sqrt (by positivity : (0 : ℝ) ≤ (sumSq (fallbackCounts t) : ℝ))]
    have hz : (((List.replicate (64 - fallbackKeywords.length) (0 : ℝ)).map fun x => x ^ 2).sum) = 0 := by
      simp
    rw [hz, add_zero, div_self (by exact_mod_cast h)]
  · unfold _get_fallback_embeddings
    rw [List.length_append, List.length_map]
    have hlen : (fallbackCounts t).length = 28 := by
      simp [fallbackCounts, fallbackKeywords]
    rw [hlen]
    rfl

/-- Witness for C7 on the text `class`, which contains a keyword. -/
theorem c7_fallback_embedding_witness :
    sumSq (fallbackCounts ("class")) ≠ 0 ∧
    ((_get_fallback_embeddings ("class")).map fun x => x ^ 2).sum = 1 :=
  ⟨by decide, (c7_fallback_embedding ("class") (by decide)).2.1⟩

/-! ### PatternCompiler lemmas: the escape-and-translate chain -/

theorem reEscape_head_ne_star : ∀ (p : List Char), (reEscape p).head? ≠ some '*' := by
  intro p
  cases p with
  | nil => simp [reEscape, concatMap]
  | cons c p' =>
    simp only [reEscape, concatMap]
    by_cases hc : c ∈ pySpecialChars
    · simp [hc]
    · have hne : c ≠ '*' := fun h => hc (h ▸ (by decide : '*' ∈ pySpecialChars))
      simp [hc, hne]

theorem replace2_cons_match (a b : Char) (repl : List Char) (t : List Char) :
    replace2 a b repl (a :: b :: t) = repl ++ replace2 a b repl t := by
  simp [replace2]

theorem replace2_cons_skip (a b : Char) (repl : List Char) (c : Char) :
    ∀ (t : List Char), c ≠ a ∨ t.head? ≠ some b →
      replace2 a b repl (c :: t) = c :: replace2 a b repl t := by
  intro t h
  cases t with
  | nil => simp [replace2]
  | cons d t' =>
    have hcond : (c == a && d == b) = false := by
      rcases h with h | h
      · simp [h]
      · have hd : d ≠ b := by simpa using h
        simp [hd]
    simp [replace2, hcond]

theorem replace2_star_reEscape : ∀ (p : List Char),
    replace2 '\\' '*' ['.', '*'] (reEscape p) = concatMap imageA p := by
  intro p
  induction p with
  | nil => rfl
  | cons c p' ih =>
    have hesc : reEscape (c :: p') =
        (if c ∈ pySpecialChars then ['\\', c] else [c]) ++ reEscape p' := rfl
    by_cases hstar : c = '*'
    · subst hstar
      rw [hesc, if_pos (by decide : '*' ∈ pySpecialChars), List.cons_append,
        List.cons_append, List.nil_append, replace2_cons_match, ih]
      simp [concatMap, imageA]
    · by_cases hspec : c ∈ pySpecialChars
      · rw [hesc, if_pos hspec, List.cons_append, List.cons_append, List.nil_append]
        rw [replace2_cons_skip '\\' '*' ['.', '*'] '\\' (c :: reEscape p')
          (Or.inr (by simp [hstar]))]
        by_cases hbs : c = '\\'
        · subst hbs
          rw [replace2_cons_skip '\\' '*' ['.', '*'] '\\' (reEscape p')
            (Or.inr (reEscape_head_ne_star p')), ih]
          simp [concatMap, imageA, hspec, hstar]
        · rw [replace2_cons_skip '\\' '*' ['.', '*'] c (reEscape p') (Or.inl hbs), ih]
          simp [concatMap, imageA, hspec, hstar]
      · have hbs : c ≠ '\\' := fun h => hspec (h ▸ (by decide : '\\' ∈ pySpecialChars))
        rw [hesc, if_neg hspec, List.cons_append, List.nil_append,
          replace2_cons_skip '\\' '*' ['.', '*'] c (reEscape p') (Or.inl hbs), ih]
        simp [concatMap, imageA, hspec, hstar]

theorem concatMap_imageA_head_ne_question : ∀ (p : List Char),
    (concatMap imageA p).head? ≠ some '?' := by
  intro p
  cases p with
  | nil => simp [concatMap]
  | cons c p' =>
    simp only [concatMap]
    by_cases hstar : c = '*'
    · subst hstar
      simp [imageA]
    · by_cases hspec : c ∈ pySpecialChars
      · simp [imageA, hstar, hspec]
      · have hne : c ≠ '?' := fun h => hspec (h ▸ (by decide : '?' ∈ pySpecialChars))
        simp [imageA, hstar, hspec, hne]

theorem replace2_question_imageA : ∀ (p : List Char),
    replace2 '\\' '?' ['.'] (concatMap imageA p) = concatMap imageF p := by
  intro p
  induction p with
  | nil => rfl
  | cons c p' ih =>
    have hu : concatMap imageA (c :: p') = imageA c ++ concatMap imageA p' := rfl
    by_cases hstar : c = '*'
    · subst hstar
      rw [hu, show imageA '*' = ['.', '*'] from rfl, List.cons_append, List.cons_append,
        List.nil_append,
        replace2_cons_skip '\\' '?' ['.'] '.' ('*' :: concatMap imageA p')
          (Or.inl (by decide)),
        replace2_cons_skip '\\' '?' ['.'] '*' (concatMap imageA p') (Or.inl (by decide)), ih]
      simp [concatMap, imageF]
    · by_cases hq : c = '?'
      · subst hq
        rw [hu, show imageA '?' = ['\\', '?'] from rfl, List.cons_append, List.cons_append,
          List.nil_append, replace2_cons_match, ih]
        simp [concatMap, imageF]
      · by_cases hspec : c ∈ pySpecialChars
        · rw [hu, show imageA c = ['\\', c] from by simp [imageA, hstar, hspec],
            List.cons_append, List.cons_append, List.nil_append,
            replace2_cons_skip '\\' '?' ['.'] '\\' (c :: concatMap imageA p')
              (Or.inr (by simp [hq]))]
          by_cases hbs : c = '\\'
          · subst hbs
            rw [replace2_cons_skip '\\' '?' ['.'] '\\' (concatMap imageA p')
              (Or.inr (concatMap_imageA_head_ne_question p')), ih]
            simp [concatMap, imageF, hstar, hq, hspec]
          · rw [replace2_cons_skip '\\' '?' ['.'] c (concatMap imageA p') (Or.inl hbs), ih]
            simp [concatMap, imageF, hstar, hq, hspec]
        · have hbs : c ≠ '\\' := fun h => hspec (h ▸ (by decide : '\\' ∈ pySpecialChars))
          rw [hu, show imageA c = [c] from by simp [imageA, hstar, hspec],
            List.cons_append, List.nil_append,
            replace2_cons_skip '\\' '?' ['.'] c (concatMap imageA p') (Or.inl hbs), ih]
          simp [concatMap, imageF, hstar, hq, hspec]

theorem translateGlob_reEscape (p : List Char) :
    translateGlob (reEscape p) = concatMap imageF p := by
  unfold translateGlob
  rw [replace2_star_reEscape, replace2_question_imageA]

/-! ### Parser lemmas -/

theorem parse_step_esc (d : Char) (cs : List Char) (cur : List RElem)
    (alts : List (List RElem)) (stack : List (List RElem × List (List RElem))) :
    parseRegexAux ('\\' :: d :: cs) cur alts stack = parseRegexAux cs (.lit d :: cur) alts stack := rfl

theorem parse_step_pipe (cs : List Char) (cur : List RElem)
    (alts : List (List RElem)) (stack : List (List RElem × List (List RElem))) :
    parseRegexAux ('|' :: cs) cur alts stack = parseRegexAux cs [] (alts ++ [cur.reverse]) stack := by
  rw [parseRegexAux.eq_def]
  dsimp only
  rw [if_neg (by decide), if_pos rfl]

theorem parse_step_caret (cs : List Char) (cur : List RElem)
    (alts : List (List RElem)) (stack : List (List RElem × List (List RElem))) :
    parseRegexAux ('^' :: cs) cur alts stack = parseRegexAux cs (.bol :: cur) alts stack := by
  rw [parseRegexAux.eq_def]
  dsimp only
  rw [if_neg (by decide), if_neg (by decide), if_neg (by decide), if_neg (by decide), if_pos rfl]

theorem parse_step_dollar (cs : List Char) (cur : List RElem)
    (alts : List (List RElem)) (stack : List (List RElem × List (List RElem))) :
    parseRegexAux ('$' :: cs) cur alts stack = parseRegexAux cs (.eol :: cur) alts stack := by
  rw [parseRegexAux.eq_def]
  dsimp only
  rw [if_neg (by decide), if_neg (by decide), if_neg (by decide), if_neg (by decide), if_neg (by decide), if_pos rfl]

theorem parse_step_dot (cs : List Char) (cur : List RElem)
    (alts : List (List RElem)) (stack : List (List RElem × List (List RElem))) :
    parseRegexAux ('.' :: cs) cur alts stack = parseRegexAux cs (.dot :: cur) alts stack := by
  rw [parseRegexAux.eq_def]
  dsimp only
  rw [if_neg (by decide), if_neg (by decide), if_neg (by decide), if_neg (by decide), if_neg (by decide), if_neg (by decide), if_pos rfl]

theorem parse_step_star (cs : List Char) (cur : List RElem)
    (alts : List (List RElem)) (stack : List (List RElem × List (List RElem))) :
    parseRegexAux ('*' :: cs) cur alts stack = parseRegexAux cs (starify cur) alts stack := by
  rw [parseRegexAux.eq_def]
  dsimp only
  rw [if_neg (by decide), if_neg (by decide), if_neg (by decide), if_neg (by decide), if_neg (by decide), if_neg (by decide), if_neg (by decide), if_pos rfl]

theorem parse_step_plain (c : Char) (h : c ∉ pySpecialChars) (cs : List Char)
    (cur : List RElem) (alts : List (List RElem))
    (stack : List (List RElem × List (List RElem))) :
    parseRegexAux (c :: cs) cur alts stack = parseRegexAux cs (.lit c :: cur) alts stack := by
  have h1 : c ≠ '\\' := fun he => h (he ▸ (by decide : '\\' ∈ pySpecialChars))
  have h2 : c ≠ '|' := fun he => h (he ▸ (by decide : '|' ∈ pySpecialChars))
  have h3 : c ≠ '(' := fun he => h (he ▸ (by decide : '(' ∈ pySpecialChars))
  have h4 : c ≠ ')' := fun he => h (he ▸ (by decide : ')' ∈ pySpecialChars))
  have h5 : c ≠ '^' := fun he => h (he ▸ (by decide : '^' ∈ pySpecialChars))
  have h6 : c ≠ '$' := fun he => h (he ▸ (by decide : '$' ∈ pySpecialChars))
  have h7 : c ≠ '.' := fun he => h (he ▸ (by decide : '.' ∈ pySpecialChars))
  have h8 : c ≠ '*' := fun he => h (he ▸ (by decide : '*' ∈ pySpecialChars))
  rw [parseRegexAux.eq_def]
  dsimp only
  rw [if_neg h1, if_neg h2, if_neg h3, if_neg h4, if_neg h5, if_neg h6, if_neg h7, if_neg h8]

theorem parseRegexAux_concatMap_imageF : ∀ (p : List Char) (cs : List Char)
    (cur : List RElem) (alts : List (List RElem)),
    parseRegexAux (concatMap imageF p ++ cs) cur alts [] =
      parseRegexAux cs ((p.map elemOf1).reverse ++ cur) alts [] := by
  intro p
  induction p with
  | nil => intro cs cur alts; simp [concatMap]
  | cons c p' ih =>
    intro cs cur alts
    have hu : concatMap imageF (c :: p') ++ cs = imageF c ++ (concatMap imageF p' ++ cs) := by
      simp [concatMap]
    rw [hu]
    by_cases hstar : c = '*'
    · subst hstar
      rw [show imageF '*' = ['.', '*'] from rfl, List.cons_append, List.cons_append,
        List.nil_append, parse_step_dot, parse_step_star, ih]
      congr 1
      simp [starify, elemOf1]
    · by_cases hq : c = '?'
      · subst hq
        rw [show imageF '?' = ['.'] from rfl, List.cons_append, List.nil_append,
          parse_step_dot, ih]
        congr 1
        simp [elemOf1]
      · by_cases hspec : c ∈ pySpecialChars
        · rw [show imageF c = ['\\', c] from by simp [imageF, hstar, hq, hspec],
            List.cons_append, List.cons_append, List.nil_append, parse_step_esc, ih]
          congr 1
          simp [elemOf1, hstar, hq]
        · rw [show imageF c = [c] from by simp [imageF, hstar, hq, hspec],
            List.cons_append, List.nil_append, parse_step_plain c hspec, ih]
          congr 1
          simp [elemOf1, hstar, hq]

theorem parseRegex0_fileShape (p : List Char) :
    parseRegex0 ('^' :: concatMap imageF p ++ '$' :: '|' :: '/' :: concatMap imageF p ++ ['$']) =
      [.bol :: p.map elemOf1 ++ [.eol], .lit '/' :: p.map elemOf1 ++ [.eol]] := by
  unfold parseRegex0
  simp only [List.cons_append, List.append_assoc]
  rw [parse_step_caret, parseRegexAux_concatMap_imageF, parse_step_dollar, parse_step_pipe,
    parse_step_plain '/' (by decide), parseRegexAux_concatMap_imageF, parse_step_dollar]
  simp [parseRegexAux, closeParse]

theorem parseRegex0_dirShape (p : List Char) :
    parseRegex0 (('^' :: concatMap imageF p ++ '$' :: '|' :: '^' :: concatMap imageF p ++ ['/'])
        ++ '|' :: '/' :: concatMap imageF p ++ ['/']) =
      [.bol :: p.map elemOf1 ++ [.eol], .bol :: p.map elemOf1 ++ [.lit '/'],
       .lit '/' :: p.map elemOf1 ++ [.lit '/']] := by
  unfold parseRegex0
  simp only [List.cons_append, List.append_assoc, List.nil_append]
  rw [parse_step_caret, parseRegexAux_concatMap_imageF, parse_step_dollar, parse_step_pipe,
    parse_step_caret, parseRegexAux_concatMap_imageF, parse_step_plain '/' (by decide),
    parse_step_pipe, parse_step_plain '/' (by decide), parseRegexAux_concatMap_imageF,
    parse_step_plain '/' (by decide)]
  simp [parseRegexAux, closeParse]

/-! ### Matcher acceptance lemmas -/

theorem reMatchF_elems_accept : ∀ (q : List Char) (s : List Char) (pos fuel : ℕ),
    s.drop pos = q → pos + q.length = s.length → 3 * q.length + 2 ≤ fuel →
    reMatchF s fuel (q.map elemOf1 ++ [.eol]) pos = true := by
  intro q
  induction q with
  | nil =>
    intro s pos fuel hdrop hlen hfuel
    obtain ⟨f1, rfl⟩ : ∃ f1, fuel = f1 + 1 := ⟨fuel - 1, by omega⟩
    obtain ⟨f2, rfl⟩ : ∃ f2, f1 = f2 + 1 := ⟨f1 - 1, by omega⟩
    have hp : pos = s.length := by simpa using hlen
    simp only [List.map_nil, List.nil_append, reMatchF, hp, beq_self_eq_true, Bool.true_and]
  | cons c q' ih =>
    intro s pos fuel hdrop hlen hfuel
    have hlt : pos < s.length := by
      simp only [List.length_cons] at hlen
      omega
    have hget : s[pos]? = some c := by
      have h0 : (s.drop pos)[0]? = some c := by rw [hdrop]; simp
      rwa [List.getElem?_drop, Nat.add_zero] at h0
    have hdrop' : s.drop (pos + 1) = q' := by
      have h1 : (s.drop pos).drop 1 = q' := by rw [hdrop]; simp
      rwa [List.drop_drop] at h1
    have hlen' : (pos + 1) + q'.length = s.length := by
      simp only [List.length_cons] at hlen
      omega
    obtain ⟨f1, rfl⟩ : ∃ f1, fuel = f1 + 1 := ⟨fuel - 1, by omega⟩
    by_cases hstar : c = '*'
    · subst hstar
      obtain ⟨f2, rfl⟩ : ∃ f2, f1 = f2 + 1 := ⟨f1 - 1, by omega⟩
      obtain ⟨f3, rfl⟩ : ∃ f3, f2 = f3 + 1 := ⟨f2 - 1, by omega⟩
      rw [show (('*' :: q').map elemOf1 ++ [RElem.eol]) =
        RElem.star .dot :: (q'.map elemOf1 ++ [RElem.eol]) from by simp [elemOf1]]
      rw [show reMatchF s (f3 + 1 + 1 + 1) (RElem.star .dot :: (q'.map elemOf1 ++ [RElem.eol])) pos =
        (reMatchF s (f3 + 1 + 1) (q'.map elemOf1 ++ [RElem.eol]) pos ||
         reMatchF s (f3 + 1 + 1) (RElem.dot :: RElem.star .dot :: (q'.map elemOf1 ++ [RElem.eol])) pos)
        from rfl]
      rw [Bool.or_eq_true]
      right
      rw [show reMatchF s (f3 + 1 + 1)
          (RElem.dot :: RElem.star .dot :: (q'.map elemOf1 ++ [RElem.eol])) pos =
        if pos < s.length then
          reMatchF s (f3 + 1) (RElem.star .dot :: (q'.map elemOf1 ++ [RElem.eol])) (pos + 1)
        else false from rfl]
      rw [if_pos hlt]
      rw [show reMatchF s (f3 + 1) (RElem.star .dot :: (q'.map elemOf1 ++ [RElem.eol])) (pos + 1) =
        (reMatchF s f3 (q'.map elemOf1 ++ [RElem.eol]) (pos + 1) ||
         reMatchF s f3 (RElem.dot :: RElem.star .dot :: (q'.map elemOf1 ++ [RElem.eol])) (pos + 1))
        from rfl]
      rw [Bool.or_eq_true]
      left
      exact ih s (pos + 1) f3 hdrop' hlen' (by simp only [List.length_cons] at hfuel; omega)
    · by_cases hq : c = '?'
      · subst hq
        rw [show (('?' :: q').map elemOf1 ++ [RElem.eol]) =
          RElem.dot :: (q'.map elemOf1 ++ [RElem.eol]) from by simp [elemOf1]]
        rw [show reMatchF s (f1 + 1) (RElem.dot :: (q'.map elemOf1 ++ [RElem.eol])) pos =
          if pos < s.length then reMatchF s f1 (q'.map elemOf1 ++ [RElem.eol]) (pos + 1)
          else false from rfl]
        rw [if_pos hlt]
        exact ih s (pos + 1) f1 hdrop' hlen' (by simp only [List.length_cons] at hfuel; omega)
      · rw [show ((c :: q').map elemOf1 ++ [RElem.eol]) =
          RElem.lit c :: (q'.map elemOf1 ++ [RElem.eol]) from by simp [elemOf1, hstar, hq]]
        rw [show reMatchF s (f1 + 1) (RElem.lit c :: (q'.map elemOf1 ++ [RElem.eol])) pos =
          ((s[pos]? == some c) && reMatchF s f1 (q'.map elemOf1 ++ [RElem.eol]) (pos + 1))
          from rfl]
        rw [hget]
        simp only [beq_self_eq_true, Bool.true_and]
        exact ih s (pos + 1) f1 hdrop' hlen' (by simp only [List.length_cons] at hfuel; omega)

theorem searchFuel_large (p : List Char) :
    3 * p.length + 3 ≤ searchFuel p (.bol :: p.map elemOf1 ++ [.eol]) := by
  unfold searchFuel
  simp only [List.length_cons, List.length_append, List.length_map]
  nlinarith [p.length]

theorem reSearch_firstAlt_bol_eol (p : List Char) (rest : List (List RElem)) :
    reSearch ((.bol :: p.map elemOf1 ++ [.eol]) :: rest) p = true := by
  unfold reSearch
  rw [List.any_eq_true]
  refine ⟨0, List.mem_range.mpr (by omega), ?_⟩
  rw [List.any_eq_true]
  refine ⟨.bol :: p.map elemOf1 ++ [.eol], by simp, ?_⟩
  have hfuel := searchFuel_large p
  obtain ⟨f1, hf1⟩ : ∃ f1, searchFuel p (.bol :: p.map elemOf1 ++ [.eol]) = f1 + 1 :=
    ⟨searchFuel p (.bol :: p.map elemOf1 ++ [.eol]) - 1, by omega⟩
  rw [hf1]
  simp only [List.cons_append]
  rw [show reMatchF p (f1 + 1) (RElem.bol :: (p.map elemOf1 ++ [RElem.eol])) 0 =
    ((0 == 0) && reMatchF p f1 (p.map elemOf1 ++ [RElem.eol]) 0) from rfl]
  simp only [beq_self_eq_true, Bool.true_and]
  exact reMatchF_elems_accept p p 0 f1 (by simp) (by simp) (by omega)

/-! ### C8 -/

/-- C8: every ignore-file line compiled into a matcher accepts, under
`re.search`, the literal pattern text that generated it (the stripped line
with the leading `/` anchor and trailing `/` directory marker removed): the
first alternative of the compiled expression is the anchored translated
pattern, which matches the literal text character by character (`.*` can
consume the literal `*`, `.` the literal `?`, and each escaped or plain
literal matches itself). -/
theorem c8_compiled_pattern_accepts_literal (line rx : List Char)
    (h : gitignoreRegexOfLine line = some rx) :
    ∃ p, strippedPatternOfLine line = some p ∧ reSearch (parseRegex0 rx) p = true := by
  unfold gitignoreRegexOfLine at h
  unfold strippedPatternOfLine
  by_cases hskip : pyStrip line = [] ∨ (pyStrip line).head? = some '#'
  · rw [if_pos hskip] at h
    cases h
  · rw [if_neg hskip] at h ⊢
    by_cases hdir : (rawPatternOfLine line).getLast? = some '/'
    · rw [if_pos hdir] at h ⊢
      rw [Option.some.injEq] at h
      subst h
      refine ⟨(rawPatternOfLine line).dropLast, rfl, ?_⟩
      rw [translateGlob_reEscape, parseRegex0_dirShape]
      exact reSearch_firstAlt_bol_eol _ _
    · rw [if_neg hdir] at h ⊢
      rw [Option.some.injEq] at h
      subst h
      refine ⟨rawPatternOfLine line, rfl, ?_⟩
      rw [translateGlob_reEscape, parseRegex0_fileShape]
      exact reSearch_firstAlt_bol_eol _ _

/-- Witness for C8 on the ignore line `*.png`: the compiled matcher accepts
the literal text `*.png`. -/
theorem c8_compiled_pattern_accepts_literal_witness :
    ∃ rx, gitignoreRegexOfLine (("*.png").toList) = some rx ∧
      ∃ p, strippedPatternOfLine (("*.png").toList) = some p ∧
        reSearch (parseRegex0 rx) p = true :=
  ⟨(("^.*\\.png$|/.*\\.png$").toList), by decide,
   c8_compiled_pattern_accepts_literal (("*.png").toList) (("^.*\\.png$|/.*\\.png$").toList)
     (by decide)⟩
